import Mathlib

/-!
Verification development for the FTP output binding
(src/bindings/ftp/ftp.go).

The path functions of Go's standard library (path/filepath on Unix) and
the external dependency github.com/cyphar/filepath-securejoin are
modelled here; the repository's own functions (getSecureDirAndFilename,
getSecureDir, mergeWithRequestMetadata and the four operation handlers)
are translated from the source.  Machine state that the handlers touch
over the network (the FTP server's answers to each command) is supplied
by an oracle structure, and each handler records the sequence of steps
it performs as a trace.
-/

set_option maxHeartbeats 1000000

/-- Splits a character list on the separator character, keeping empty
components, exactly as splitting a path string on every slash. -/
def splitSlash : List Char → List String
  | [] => [""]
  | c :: rest =>
    if c = '/' then "" :: splitSlash rest
    else
      match splitSlash rest with
      | [] => [⟨[c]⟩]
      | s :: ss => ⟨c :: s.data⟩ :: ss

/-- Renders a component list back to characters with a slash between
consecutive components. -/
def joinSlash : List String → List Char
  | [] => []
  | [s] => s.data
  | s :: rest => s.data ++ '/' :: joinSlash rest

/-- One pass of Go path cleaning over a component list, carried out on a
reversed stack: empty components and dots are dropped, a dotdot pops the
stack (for an absolute path a dotdot at the top level is discarded, for
a relative path it is kept), every other component is pushed. -/
def cleanLoop (isAbs : Bool) : List String → List String → List String
  | [], stack => stack
  | c :: rest, stack =>
    if c = "" ∨ c = "." then cleanLoop isAbs rest stack
    else if c = ".." then
      match stack with
      | [] => if isAbs then cleanLoop isAbs rest [] else cleanLoop isAbs rest [".."]
      | t :: stack2 =>
        if isAbs = false ∧ t = ".." then cleanLoop isAbs rest (".." :: t :: stack2)
        else cleanLoop isAbs rest stack2
    else cleanLoop isAbs rest (c :: stack)

/-- Whether a path string is rooted, i.e. begins with a slash. -/
def isAbsPath (s : String) : Bool := s.data.head? = some '/'

/-- Go's filepath.Clean for Unix paths, implemented on the component
list: shortest lexically equivalent path (dots and empty components
removed, dotdots resolved, a lone empty result becomes "." and an
absolute path keeps its leading slash). -/
def goClean (s : String) : String :=
  if s.data = [] then "."
  else
    let comps := (cleanLoop (isAbsPath s) (splitSlash s.data) []).reverse
    if isAbsPath s then ⟨'/' :: joinSlash comps⟩
    else if comps = [] then "." else ⟨joinSlash comps⟩

/-- Go's filepath.Join for two elements: empty elements are skipped and
the slash-concatenation is cleaned; all empty yields the empty string. -/
def goJoin (a b : String) : String :=
  if a ≠ "" then goClean (a ++ "/" ++ b)
  else if b ≠ "" then goClean b
  else ""

/-- Go's filepath.Dir: everything up to and including the final slash,
cleaned; a path without a slash has directory ".". -/
def dropAfterLastSlash : List Char → Option (List Char)
  | [] => none
  | c :: rest =>
    match dropAfterLastSlash rest with
    | some p => some (c :: p)
    | none => if c = '/' then some ['/'] else none

/-- Go's filepath.Dir on Unix paths. -/
def goDir (p : String) : String :=
  match dropAfterLastSlash p.data with
  | some pre => goClean ⟨pre⟩
  | none => "."

/-- Go's filepath.Base on Unix paths: last element after trailing
slashes are removed; empty input gives ".", an all-slash input "/". -/
def goBase (p : String) : String :=
  if p.data = [] then "."
  else
    let cs := (p.data.reverse.dropWhile (· = '/')).reverse
    if cs = [] then "/"
    else ⟨(cs.reverse.takeWhile (· ≠ '/')).reverse⟩

/-- Model of securejoin.SecureJoin from
github.com/cyphar/filepath-securejoin (an external dependency of the
repository), under the assumption that no path component is a symbolic
link — the only behaviour statable without a filesystem.  Per the
library's documentation the result is then lexically equivalent to
Join(root, Clean("/" + unsafePath)), and the call never fails. -/
def secureJoin (root unsafePath : String) : String :=
  goJoin root (goClean ("/" ++ unsafePath))

/-- Translated from getSecureDirAndFilename (src/bindings/ftp/ftp.go):
the root path is first scoped under ".", the untrusted filename is then
securely joined to it, and the result is split into its directory and
base name.  The Go error return is always nil in the no-symlink model,
so the function is total here. -/
def getSecureDirAndFilename (rootPath filename : String) :
    String × String × String :=
  let root2 := secureJoin "." rootPath
  let absPath := secureJoin root2 filename
  (absPath, goDir absPath, goBase absPath)

/-- Translated from getSecureDir (src/bindings/ftp/ftp.go): the root
path is scoped under ".", then the untrusted directory is securely
joined to it. -/
def getSecureDir (rootPath directory : String) : String :=
  secureJoin (secureJoin "." rootPath) directory

/-- A path component that survives cleaning: neither empty nor a dot
nor a dotdot. -/
def isRealComp (c : String) : Prop := c ≠ "" ∧ c ≠ "." ∧ c ≠ ".."

/-- The stack of components produced by cleaning an untrusted path as
if it were rooted: exactly the component list of Clean("/" + u) without
the leading slash. -/
def absStack (u : String) : List String :=
  (cleanLoop true (splitSlash u.data) []).reverse

/-- Renders a component stack as a relative path: the empty stack is
the current directory. -/
def relRender (S : List String) : String :=
  if S = [] then "." else ⟨joinSlash S⟩

/-- A cleaned relative path: either the current directory, or a path
that does not begin with a slash and whose components are all real
(no empty, dot or dotdot components — in particular it cannot navigate
upward out of whatever it is joined to). -/
def isCleanRel (rel : String) : Prop :=
  rel = "." ∨
    ((∀ s ∈ splitSlash rel.data, isRealComp s) ∧ rel.data.head? ≠ some '/')

/-- Static binding configuration, translated from the ftpMetadata
struct of src/bindings/ftp/ftp.go. -/
structure ftpMetadata where
  RootPath : String
  Server : String
  Port : String
  User : String
  Password : String
  Directory : String
deriving DecidableEq, Repr

/-- An inbound invocation: operation kind, raw payload bytes (modelled
as the byte string) and the per-request metadata map, modelled as an
association list whose lookup takes the first matching key. -/
structure InvokeRequest where
  operation : String
  data : String
  metadata : List (String × String)
deriving DecidableEq, Repr

/-- Go map lookup with the comma-ok form: the value and whether the key
is present. -/
def mdLookup (md : List (String × String)) (k : String) : Option String :=
  (md.find? (fun p => p.1 = k)).map Prod.snd

/-- Go map indexing without the ok flag: a missing key reads as the
empty string. -/
def mdGet (md : List (String × String)) (k : String) : String :=
  (mdLookup md k).getD ""

/-- The response produced by a handler; only its Data field is ever
set by this binding. -/
structure InvokeResponse where
  data : String
deriving DecidableEq, Repr

/-- The distinct error exits of the handlers, one constructor per
fmt.Errorf site that a claim can observe. -/
inductive FtpError where
  | mergeMeta
  | filenameEmpty
  | connection (server : String)
  | login (user : String)
  | makeDir (dir : String)
  | changeDir (dir : String)
  | stor
  | quit
  | listDir (dir : String)
  | retr (filename : String)
  | readAll (filename : String)
  | deleteFile (filename : String)
  | unsupported (op : String)
deriving DecidableEq, Repr

/-- One directory entry as reported by the FTP LIST command: its name
and the rendering of its entry type. -/
structure FtpEntry where
  name : String
  entryType : String
deriving DecidableEq, Repr

/-- The FTP server's answers to the commands a single invocation can
issue, one field per call site in the handler bodies (the two ChangeDir
calls of the create handler may answer differently because the MakeDir
between them changes server state). -/
structure ConnOracle where
  dialOk : Bool
  loginOk : Bool
  changeDirOk : Bool
  makeDirOk : Bool
  changeDirRetryOk : Bool
  storOk : Bool
  listEntries : Option (List FtpEntry)
  retrOk : Bool
  readOk : Bool
  fileContent : String
  deleteOk : Bool
  quitOk : Bool
deriving DecidableEq, Repr

/-- The observable steps of one invocation, in program order: the pure
path resolutions and every FTP command issued, plus the draining and
closing of the retrieval stream in the get handler. -/
inductive Step where
  | resolve (rootPath filename : String)
  | resolveDir (rootPath directory : String)
  | dial (server : String)
  | login (user : String)
  | changeDir (dir : String)
  | makeDir (dir : String)
  | stor (filename : String)
  | listCmd (dir : String)
  | retr (filename : String)
  | readStream (filename : String)
  | closeStream
  | deleteCmd (filename : String)
  | quit
deriving DecidableEq, Repr

/-- Minimal JSON string quoting as produced by encoding/json for the
strings occurring here (quote and backslash escaped; none of the inputs
in this development contain control or HTML-escaped characters). -/
def jsonStr (s : String) : String :=
  ⟨'"' :: s.data.foldr
    (fun c acc =>
      if c = '"' then '\\' :: '"' :: acc
      else if c = '\\' then '\\' :: '\\' :: acc
      else c :: acc) ['"']⟩

/-- json.Marshal of the createResponse struct. -/
def marshalCreateResponse (fileName : String) : String :=
  "\x7b\"fileName\":" ++ jsonStr fileName ++ "\x7d"

/-- json.Marshal of the listResponse struct; a nil FileInfos slice
(no entries appended) marshals as null, matching encoding/json. -/
def marshalListResponse (dir : String) (fis : List FtpEntry) : String :=
  let items :=
    match fis with
    | [] => "null"
    | _ => "[" ++ String.intercalate ","
        (fis.map (fun e =>
          "\x7b\"filename\":" ++ jsonStr e.name ++
          ",\"filetype\":" ++ jsonStr e.entryType ++ "\x7d")) ++ "]"
  "\x7b\"directory\":" ++ jsonStr dir ++ ",\"fileInfos\":" ++ items ++ "\x7d"

/-- Translated from mergeWithRequestMetadata (src/bindings/ftp/ftp.go):
copies the static configuration, replaces the Directory field when the
request carries a non-empty value under the key "Directory", and always
returns a nil error. -/
def mergeWithRequestMetadata (metadata : ftpMetadata) (req : InvokeRequest) :
    ftpMetadata × Option FtpError :=
  let merged := metadata
  let merged :=
    match mdLookup req.metadata "Directory" with
    | some val => if val ≠ "" then { merged with Directory := val } else merged
    | none => merged
  (merged, none)

deriving instance DecidableEq for Except

namespace Ftp

/-- Translated from the create handler (src/bindings/ftp/ftp.go):
merge metadata, read the filename under the key "Filename", resolve it
under the root, then dial, login, change into the directory (on failure
make the directory once and retry the change once), store, quit, and
answer with the JSON-encoded resolved path.  Every early error return
leaves the trace as accumulated at that point. -/
def create (fm : ftpMetadata) (req : InvokeRequest) (c : ConnOracle) :
    Except FtpError InvokeResponse × List Step :=
  let m0 := mergeWithRequestMetadata fm req
  match m0.2 with
  | some _ => (.error .mergeMeta, [])
  | none =>
    let metadata := m0.1
    let filename := mdGet req.metadata "Filename"
    if filename = "" then (.error .filenameEmpty, [])
    else
      let res := getSecureDirAndFilename fm.RootPath filename
      let absPath := res.1
      let dir := res.2.1
      let exactFilename := res.2.2
      let tr := [Step.resolve fm.RootPath filename, Step.dial metadata.Server]
        if c.dialOk = false then (.error (.connection metadata.Server), tr)
        else
          let tr := tr ++ [Step.login metadata.User]
          if c.loginOk = false then (.error (.login metadata.User), tr)
          else
            let storePhase := fun (tr : List Step) =>
              let tr := tr ++ [Step.stor exactFilename]
              if c.storOk = false then (Except.error FtpError.stor, tr)
              else
                let tr := tr ++ [Step.quit]
                if c.quitOk = false then (Except.error FtpError.quit, tr)
                else (Except.ok (InvokeResponse.mk (marshalCreateResponse absPath)), tr)
            let tr := tr ++ [Step.changeDir dir]
            if c.changeDirOk then storePhase tr
            else
              let tr := tr ++ [Step.makeDir dir]
              if c.makeDirOk = false then (.error (.makeDir dir), tr)
              else
                let tr := tr ++ [Step.changeDir dir]
                if c.changeDirRetryOk = false then (.error (.changeDir dir), tr)
                else storePhase tr

/-- Translated from the list handler (src/bindings/ftp/ftp.go): merge
metadata, dial, login, then resolve the (possibly overridden) directory
under the root, issue LIST with the resolved path directly, quit, and
answer with the JSON-encoded directory and entries. -/
def list (fm : ftpMetadata) (req : InvokeRequest) (c : ConnOracle) :
    Except FtpError InvokeResponse × List Step :=
  let m0 := mergeWithRequestMetadata fm req
  match m0.2 with
  | some _ => (.error .mergeMeta, [])
  | none =>
    let metadata := m0.1
    let tr := [Step.dial metadata.Server]
    if c.dialOk = false then (.error (.connection metadata.Server), tr)
    else
      let tr := tr ++ [Step.login metadata.User]
      if c.loginOk = false then (.error (.login metadata.User), tr)
      else
        let directory := metadata.Directory
        let dir := getSecureDir metadata.RootPath directory
        let tr := tr ++ [Step.resolveDir metadata.RootPath directory, Step.listCmd dir]
        match c.listEntries with
        | none => (.error (.listDir dir), tr)
        | some entries =>
          let tr := tr ++ [Step.quit]
          if c.quitOk = false then (.error .quit, tr)
          else (.ok (InvokeResponse.mk (marshalListResponse dir entries)), tr)

/-- Translated from the get handler (src/bindings/ftp/ftp.go): merge
metadata, read the filename under "Filename", resolve it, dial, login,
change into the directory (no creation fallback), retrieve the file,
quit, then drain the stream; the deferred stream close runs at every
return after a successful retrieve. -/
def get (fm : ftpMetadata) (req : InvokeRequest) (c : ConnOracle) :
    Except FtpError InvokeResponse × List Step :=
  let m0 := mergeWithRequestMetadata fm req
  match m0.2 with
  | some _ => (.error .mergeMeta, [])
  | none =>
    let metadata := m0.1
    let filename := mdGet req.metadata "Filename"
    if filename = "" then (.error .filenameEmpty, [])
    else
      let res := getSecureDirAndFilename fm.RootPath filename
      let dir := res.2.1
      let exactFilename := res.2.2
      let tr := [Step.resolve fm.RootPath filename, Step.dial metadata.Server]
      if c.dialOk = false then (.error (.connection metadata.Server), tr)
      else
        let tr := tr ++ [Step.login metadata.User]
        if c.loginOk = false then (.error (.login metadata.User), tr)
        else
          let tr := tr ++ [Step.changeDir dir]
          if c.changeDirOk = false then (.error (.changeDir dir), tr)
          else
            let tr := tr ++ [Step.retr exactFilename]
            if c.retrOk = false then (.error (.retr filename), tr)
            else
              let tr := tr ++ [Step.quit]
              if c.quitOk = false then (.error .quit, tr ++ [Step.closeStream])
              else
                let tr := tr ++ [Step.readStream exactFilename]
                if c.readOk = false then
                  (.error (.readAll filename), tr ++ [Step.closeStream])
                else
                  (.ok (InvokeResponse.mk c.fileContent), tr ++ [Step.closeStream])

/-- Translated from the delete handler (src/bindings/ftp/ftp.go): merge
metadata, read the filename under "Filename", resolve it, dial, login,
change into the directory (no creation fallback), delete the file,
quit, and answer with an empty response. -/
def delete (fm : ftpMetadata) (req : InvokeRequest) (c : ConnOracle) :
    Except FtpError InvokeResponse × List Step :=
  let m0 := mergeWithRequestMetadata fm req
  match m0.2 with
  | some _ => (.error .mergeMeta, [])
  | none =>
    let metadata := m0.1
    let filename := mdGet req.metadata "Filename"
    if filename = "" then (.error .filenameEmpty, [])
    else
      let res := getSecureDirAndFilename fm.RootPath filename
      let dir := res.2.1
      let exactFilename := res.2.2
      let tr := [Step.resolve fm.RootPath filename, Step.dial metadata.Server]
      if c.dialOk = false then (.error (.connection metadata.Server), tr)
      else
        let tr := tr ++ [Step.login metadata.User]
        if c.loginOk = false then (.error (.login metadata.User), tr)
        else
          let tr := tr ++ [Step.changeDir dir]
          if c.changeDirOk = false then (.error (.changeDir dir), tr)
          else
            let tr := tr ++ [Step.deleteCmd exactFilename]
            if c.deleteOk = false then (.error (.deleteFile exactFilename), tr)
            else
              let tr := tr ++ [Step.quit]
              if c.quitOk = false then (.error .quit, tr)
              else (.ok (InvokeResponse.mk ""), tr)

/-- Translated from Invoke (src/bindings/ftp/ftp.go): operation
dispatch on the operation kind strings of the host runtime. -/
def invoke (fm : ftpMetadata) (req : InvokeRequest) (c : ConnOracle) :
    Except FtpError InvokeResponse × List Step :=
  if req.operation = "create" then create fm req c
  else if req.operation = "list" then list fm req c
  else if req.operation = "get" then get fm req c
  else if req.operation = "delete" then delete fm req c
  else (.error (.unsupported req.operation), [])

end Ftp

/-- Recognizes a directory-creation step in a trace. -/
def isMakeDirStep : Step → Bool
  | .makeDir _ => true
  | _ => false

/-- Recognizes a directory-change step in a trace. -/
def isChangeDirStep : Step → Bool
  | .changeDir _ => true
  | _ => false

/-- Recognizes the session-termination step in a trace. -/
def isQuitStep : Step → Bool
  | .quit => true
  | _ => false

/-- Recognizes the authentication step in a trace. -/
def isLoginStep : Step → Bool
  | .login _ => true
  | _ => false

/-- Recognizes the directory-resolution step in a trace. -/
def isResolveDirStep : Step → Bool
  | .resolveDir _ _ => true
  | _ => false

/-- Recognizes the stream-drain step in a trace. -/
def isReadStep : Step → Bool
  | .readStream _ => true
  | _ => false

/-- Recognizes the stream-release step in a trace. -/
def isCloseStep : Step → Bool
  | .closeStream => true
  | _ => false

/-- A sample static configuration used by the concrete-scenario
theorems below. -/
def sampleConfig : ftpMetadata :=
  { RootPath := "/srv/ftp/data", Server := "srv:21", Port := "21",
    User := "u", Password := "p", Directory := "" }

/-- A sample create request carrying a relative filename under the
capitalized metadata key the code reads. -/
def sampleCreateReq : InvokeRequest :=
  { operation := "create", data := "hello",
    metadata := [("Filename", "reports/out.txt")] }

/-- A server that answers every command positively. -/
def serverAllOk : ConnOracle :=
  { dialOk := true, loginOk := true, changeDirOk := true, makeDirOk := true,
    changeDirRetryOk := true, storOk := true,
    listEntries := some [{ name := "out.txt", entryType := "file" }],
    retrOk := true, readOk := true, fileContent := "hello",
    deleteOk := true, quitOk := true }

/-! Lemmas about the component splitter. -/

theorem splitSlash_ne_nil (cs : List Char) : splitSlash cs ≠ [] := by
  cases cs with
  | nil => simp [splitSlash]
  | cons c rest =>
    simp only [splitSlash]
    split
    · simp
    · split <;> simp

theorem splitSlash_sep (rest : List Char) :
    splitSlash ('/' :: rest) = "" :: splitSlash rest := by
  simp [splitSlash]

theorem splitSlash_char (c : Char) (rest : List Char) (h : c ≠ '/')
    (s : String) (ss : List String) (hs : splitSlash rest = s :: ss) :
    splitSlash (c :: rest) = ⟨c :: s.data⟩ :: ss := by
  simp [splitSlash, h, hs]

theorem splitSlash_append (xs ys : List Char) :
    splitSlash (xs ++ '/' :: ys) = splitSlash xs ++ splitSlash ys := by
  induction xs with
  | nil => simp [splitSlash_sep, splitSlash]
  | cons c rest ih =>
    by_cases h : c = '/'
    · subst h
      simp only [List.cons_append, splitSlash_sep, ih]
    · cases hsr : splitSlash rest with
      | nil => exact absurd hsr (splitSlash_ne_nil rest)
      | cons s ss =>
        have h2 : splitSlash (rest ++ '/' :: ys) = s :: (ss ++ splitSlash ys) := by
          rw [ih, hsr]; rfl
        rw [List.cons_append, splitSlash_char c _ h s (ss ++ splitSlash ys) h2,
          splitSlash_char c rest h s ss hsr]
        rfl

theorem mem_splitSlash_no_slash (cs : List Char) :
    ∀ s ∈ splitSlash cs, '/' ∉ s.data := by
  induction cs with
  | nil =>
    intro s hs
    simp [splitSlash] at hs
    subst hs
    simp [String.data]
  | cons c rest ih =>
    by_cases h : c = '/'
    · subst h
      rw [splitSlash_sep]
      intro s hs
      rcases List.mem_cons.mp hs with h1 | h1
      · subst h1; simp [String.data]
      · exact ih s h1
    · cases hsr : splitSlash rest with
      | nil => exact absurd hsr (splitSlash_ne_nil rest)
      | cons s0 ss =>
        rw [splitSlash_char c rest h s0 ss hsr]
        intro s hs
        rcases List.mem_cons.mp hs with h1 | h1
        · subst h1
          intro hmem
          rcases List.mem_cons.mp hmem with h2 | h2
          · exact h h2.symm
          · exact ih s0 (hsr ▸ List.mem_cons_self s0 ss) h2
        · exact ih s (hsr ▸ List.mem_cons_of_mem s0 h1)

theorem splitSlash_no_slash (cs : List Char) (h : ∀ c ∈ cs, c ≠ '/') :
    splitSlash cs = [⟨cs⟩] := by
  induction cs with
  | nil => rfl
  | cons c rest ih =>
    have hc : c ≠ '/' := h c (List.mem_cons_self c rest)
    have hrest := ih (fun x hx => h x (List.mem_cons_of_mem c hx))
    rw [splitSlash_char c rest hc ⟨rest⟩ [] hrest]

theorem splitSlash_joinSlash (l : List String) (hne : l ≠ [])
    (h : ∀ s ∈ l, '/' ∉ s.data) : splitSlash (joinSlash l) = l := by
  induction l with
  | nil => exact absurd rfl hne
  | cons s rest ih =>
    cases rest with
    | nil =>
      show splitSlash s.data = [s]
      rw [splitSlash_no_slash s.data
        (fun c hc heq => h s (List.mem_cons_self s []) (heq ▸ hc))]
    | cons t rest2 =>
      show splitSlash (s.data ++ '/' :: joinSlash (t :: rest2)) = s :: t :: rest2
      rw [splitSlash_append,
        splitSlash_no_slash s.data
          (fun c hc hesq => h s (List.mem_cons_self s _) (hesq ▸ hc)),
        ih (by simp) (fun x hx => h x (List.mem_cons_of_mem s hx))]
      rfl
/-! Lemmas about the cleaning loop. -/

theorem cleanLoop_skip (isAbs : Bool) (c : String) (hc : c = "" ∨ c = ".")
    (rest stack : List String) :
    cleanLoop isAbs (c :: rest) stack = cleanLoop isAbs rest stack := by
  simp [cleanLoop, hc]

theorem cleanLoop_push (isAbs : Bool) (c : String) (hc : isRealComp c)
    (rest stack : List String) :
    cleanLoop isAbs (c :: rest) stack = cleanLoop isAbs rest (c :: stack) := by
  obtain ⟨h1, h2, h3⟩ := hc
  simp [cleanLoop, h1, h2, h3]

theorem cleanLoop_append (isAbs : Bool) (xs ys stack : List String) :
    cleanLoop isAbs (xs ++ ys) stack = cleanLoop isAbs ys (cleanLoop isAbs xs stack) := by
  induction xs generalizing stack with
  | nil => rfl
  | cons c rest ih =>
    by_cases h1 : c = "" ∨ c = "."
    · rw [List.cons_append, cleanLoop_skip isAbs c h1, cleanLoop_skip isAbs c h1, ih]
    · by_cases h2 : c = ".."
      · subst h2
        cases stack with
        | nil =>
          cases isAbs <;>
            simp only [List.cons_append, cleanLoop, if_neg h1, if_pos rfl] <;>
            simp [ih]
        | cons t stack2 =>
          simp only [List.cons_append, cleanLoop, if_neg h1, if_pos rfl]
          by_cases h3 : isAbs = false ∧ t = ".."
          · obtain ⟨h4, h5⟩ := h3
            subst h4
            subst h5
            simp [ih]
          · simp [h3, ih]
      · rw [List.cons_append, cleanLoop_push isAbs c ⟨fun h => h1 (Or.inl h),
          fun h => h1 (Or.inr h), h2⟩, cleanLoop_push isAbs c ⟨fun h => h1 (Or.inl h),
          fun h => h1 (Or.inr h), h2⟩, ih]

theorem cleanLoop_all_real (isAbs : Bool) (xs : List String)
    (h : ∀ c ∈ xs, isRealComp c) (stack : List String) :
    cleanLoop isAbs xs stack = xs.reverse ++ stack := by
  induction xs generalizing stack with
  | nil => simp [cleanLoop]
  | cons c rest ih =>
    rw [cleanLoop_push isAbs c (h c (List.mem_cons_self c rest)),
      ih (fun x hx => h x (List.mem_cons_of_mem c hx))]
    simp

theorem cleanLoop_true_real (xs : List String) :
    ∀ stack, (∀ c ∈ stack, isRealComp c) →
      ∀ c ∈ cleanLoop true xs stack, isRealComp c := by
  induction xs with
  | nil => intro stack h c hc; exact h c hc
  | cons c rest ih =>
    intro stack h x hx
    by_cases h1 : c = "" ∨ c = "."
    · rw [cleanLoop_skip true c h1] at hx
      exact ih stack h x hx
    · by_cases h2 : c = ".."
      · subst h2
        cases stack with
        | nil =>
          simp only [cleanLoop, if_neg h1, if_pos rfl, if_pos rfl] at hx
          exact ih [] (by simp) x hx
        | cons t stack2 =>
          have h3 : ¬(true = false ∧ t = "..") := by simp
          simp only [cleanLoop, if_neg h1, if_pos rfl, if_neg h3] at hx
          exact ih stack2 (fun y hy => h y (List.mem_cons_of_mem t hy)) x hx
      · rw [cleanLoop_push true c ⟨fun hh => h1 (Or.inl hh),
          fun hh => h1 (Or.inr hh), h2⟩] at hx
        refine ih (c :: stack) ?_ x hx
        intro y hy
        rcases List.mem_cons.mp hy with h4 | h4
        · exact h4 ▸ ⟨fun hh => h1 (Or.inl hh), fun hh => h1 (Or.inr hh), h2⟩
        · exact h y h4

theorem cleanLoop_true_mem (xs : List String) :
    ∀ stack, ∀ c ∈ cleanLoop true xs stack, c ∈ xs ∨ c ∈ stack := by
  induction xs with
  | nil => intro stack c hc; exact Or.inr hc
  | cons c rest ih =>
    intro stack x hx
    by_cases h1 : c = "" ∨ c = "."
    · rw [cleanLoop_skip true c h1] at hx
      rcases ih stack x hx with h | h
      · exact Or.inl (List.mem_cons_of_mem c h)
      · exact Or.inr h
    · by_cases h2 : c = ".."
      · subst h2
        cases stack with
        | nil =>
          simp only [cleanLoop, if_neg h1, if_pos rfl, if_pos rfl] at hx
          rcases ih [] x hx with h | h
          · exact Or.inl (List.mem_cons_of_mem _ h)
          · simp at h
        | cons t stack2 =>
          have h3 : ¬(true = false ∧ t = "..") := by simp
          simp only [cleanLoop, if_neg h1, if_pos rfl, if_neg h3] at hx
          rcases ih stack2 x hx with h | h
          · exact Or.inl (List.mem_cons_of_mem _ h)
          · exact Or.inr (List.mem_cons_of_mem t h)
      · rw [cleanLoop_push true c ⟨fun hh => h1 (Or.inl hh),
          fun hh => h1 (Or.inr hh), h2⟩] at hx
        rcases ih (c :: stack) x hx with h | h
        · exact Or.inl (List.mem_cons_of_mem c h)
        · rcases List.mem_cons.mp h with h4 | h4
          · exact Or.inl (h4 ▸ List.mem_cons_self c rest)
          · exact Or.inr h4

theorem absStack_real (u : String) : ∀ c ∈ absStack u, isRealComp c := by
  intro c hc
  exact cleanLoop_true_real (splitSlash u.data) [] (by simp) c
    (List.mem_reverse.mp hc)

theorem absStack_no_slash (u : String) : ∀ c ∈ absStack u, '/' ∉ c.data := by
  intro c hc
  rcases cleanLoop_true_mem (splitSlash u.data) [] c (List.mem_reverse.mp hc) with h | h
  · exact mem_splitSlash_no_slash u.data c h
  · simp at h

/-! String-level helpers. -/

theorem strData_append (a b : String) : (a ++ b).data = a.data ++ b.data := rfl

theorem strMk_data (s : String) : (⟨s.data⟩ : String) = s := rfl

theorem strData_eq_nil_iff (s : String) : s.data = [] ↔ s = "" := by
  constructor
  · intro h
    cases s with
    | mk d =>
      cases h
      rfl
  · intro h
    rw [h]

/-! Decomposition of goClean on rendered component stacks. -/

theorem goClean_slashPre (u : String) :
    goClean ("/" ++ u) = ⟨'/' :: joinSlash (absStack u)⟩ := by
  have hd : ("/" ++ u).data = '/' :: u.data := by rw [strData_append]; rfl
  have habs : isAbsPath ("/" ++ u) = true := by simp [isAbsPath, hd]
  rw [goClean]
  rw [if_neg (by rw [hd]; simp)]
  simp only [habs, if_pos]
  rw [hd, splitSlash_sep, cleanLoop_skip true "" (Or.inl rfl)]
  simp [absStack]

theorem joinSlash_ne_nil (S : List String) (hne : S ≠ [])
    (h : ∀ c ∈ S, isRealComp c) : joinSlash S ≠ [] := by
  cases S with
  | nil => exact absurd rfl hne
  | cons s rest =>
    cases rest with
    | nil =>
      show s.data ≠ []
      intro hd
      exact (h s (List.mem_cons_self s [])).1 ((strData_eq_nil_iff s).mp hd)
    | cons t r2 =>
      show s.data ++ '/' :: joinSlash (t :: r2) ≠ []
      simp

theorem joinSlash_head (s : String) (rest : List String) (hs : s.data ≠ []) :
    (joinSlash (s :: rest)).head? = s.data.head? := by
  cases rest with
  | nil => rfl
  | cons t r2 =>
    show (s.data ++ '/' :: joinSlash (t :: r2)).head? = s.data.head?
    cases hd : s.data with
    | nil => exact absurd hd hs
    | cons a l => rfl

theorem relRender_data_props (S : List String) (hreal : ∀ c ∈ S, isRealComp c)
    (hns : ∀ c ∈ S, '/' ∉ c.data) :
    (relRender S).data ≠ [] ∧ (relRender S).data.head? ≠ some '/' := by
  by_cases hS : S = []
  · subst hS
    refine ⟨by simp [relRender], ?_⟩
    intro h
    simp [relRender] at h
  · have hd : (relRender S).data = joinSlash S := by simp [relRender, hS]
    refine ⟨by rw [hd]; exact joinSlash_ne_nil S hS hreal, ?_⟩
    cases S with
    | nil => exact absurd rfl hS
    | cons s rest =>
      have hsd : s.data ≠ [] := by
        intro h
        exact (hreal s (List.mem_cons_self s rest)).1 ((strData_eq_nil_iff s).mp h)
      rw [hd, joinSlash_head s rest hsd]
      intro h
      have hmem : '/' ∈ s.data := by
        cases hcs : s.data with
        | nil => exact absurd hcs hsd
        | cons a l =>
          rw [hcs] at h
          simp at h
          simp [hcs, h]
      exact hns s (List.mem_cons_self s rest) hmem

theorem relRender_ne_empty (S : List String) (hreal : ∀ c ∈ S, isRealComp c)
    (hns : ∀ c ∈ S, '/' ∉ c.data) : relRender S ≠ "" := by
  intro h
  exact (relRender_data_props S hreal hns).1 ((strData_eq_nil_iff _).mpr h)

theorem cleanLoop_relRender (S : List String) (hreal : ∀ c ∈ S, isRealComp c)
    (hns : ∀ c ∈ S, '/' ∉ c.data) (stack : List String) :
    cleanLoop false (splitSlash (relRender S).data) stack = S.reverse ++ stack := by
  by_cases hS : S = []
  · subst hS
    have h1 : splitSlash (relRender ([] : List String)).data = ["."] := rfl
    rw [h1, cleanLoop_skip false "." (Or.inr rfl)]
    rfl
  · have hd : (relRender S).data = joinSlash S := by simp [relRender, hS]
    rw [hd, splitSlash_joinSlash S hS hns, cleanLoop_all_real false S hreal stack]

theorem goClean_rel_slash (SR SF : List String)
    (hrealR : ∀ c ∈ SR, isRealComp c) (hnsR : ∀ c ∈ SR, '/' ∉ c.data)
    (hrealF : ∀ c ∈ SF, isRealComp c) (hnsF : ∀ c ∈ SF, '/' ∉ c.data) :
    goClean (relRender SR ++ "/" ++ ⟨'/' :: joinSlash SF⟩) = relRender (SR ++ SF) := by
  have hwdata : (relRender SR ++ "/" ++ ⟨'/' :: joinSlash SF⟩).data =
      (relRender SR).data ++ '/' :: '/' :: joinSlash SF := by
    rw [strData_append, strData_append]
    simp
  have hsplit : splitSlash (relRender SR ++ "/" ++ ⟨'/' :: joinSlash SF⟩).data =
      splitSlash (relRender SR).data ++ "" :: splitSlash (joinSlash SF) := by
    rw [hwdata, splitSlash_append, splitSlash_sep]
  have hloop : cleanLoop false
      (splitSlash (relRender SR ++ "/" ++ ⟨'/' :: joinSlash SF⟩).data) [] =
      (SR ++ SF).reverse := by
    rw [hsplit, cleanLoop_append, cleanLoop_relRender SR hrealR hnsR,
      cleanLoop_skip false "" (Or.inl rfl)]
    by_cases hSF : SF = []
    · subst hSF
      have h1 : splitSlash (joinSlash ([] : List String)) = [""] := rfl
      rw [h1, cleanLoop_skip false "" (Or.inl rfl)]
      simp [cleanLoop]
    · rw [splitSlash_joinSlash SF hSF hnsF, cleanLoop_all_real false SF hrealF]
      simp
  have hne : (relRender SR ++ "/" ++ ⟨'/' :: joinSlash SF⟩).data ≠ [] := by
    rw [hwdata]
    simp
  have habs : isAbsPath (relRender SR ++ "/" ++ ⟨'/' :: joinSlash SF⟩) = false := by
    obtain ⟨h1, h2⟩ := relRender_data_props SR hrealR hnsR
    simp only [isAbsPath, hwdata]
    cases hcs : (relRender SR).data with
    | nil => exact absurd hcs h1
    | cons a l =>
      rw [hcs] at h2
      simp at h2
      simp [h2]
  rw [goClean, if_neg hne]
  simp only [habs, hloop, List.reverse_reverse, Bool.false_eq_true, if_false]
  by_cases hC : SR ++ SF = [] <;> simp [hC, relRender]

theorem goClean_rel_rel (SR SF : List String)
    (hrealR : ∀ c ∈ SR, isRealComp c) (hnsR : ∀ c ∈ SR, '/' ∉ c.data)
    (hrealF : ∀ c ∈ SF, isRealComp c) (hnsF : ∀ c ∈ SF, '/' ∉ c.data) :
    goClean (relRender SR ++ "/" ++ relRender SF) = relRender (SR ++ SF) := by
  have hwdata : (relRender SR ++ "/" ++ relRender SF).data =
      (relRender SR).data ++ '/' :: (relRender SF).data := by
    rw [strData_append, strData_append]
    simp
  have hsplit : splitSlash (relRender SR ++ "/" ++ relRender SF).data =
      splitSlash (relRender SR).data ++ splitSlash (relRender SF).data := by
    rw [hwdata, splitSlash_append]
  have hloop : cleanLoop false
      (splitSlash (relRender SR ++ "/" ++ relRender SF).data) [] =
      (SR ++ SF).reverse := by
    rw [hsplit, cleanLoop_append, cleanLoop_relRender SR hrealR hnsR,
      cleanLoop_relRender SF hrealF hnsF]
    simp
  have hne : (relRender SR ++ "/" ++ relRender SF).data ≠ [] := by
    rw [hwdata]
    simp
  have habs : isAbsPath (relRender SR ++ "/" ++ relRender SF) = false := by
    obtain ⟨h1, h2⟩ := relRender_data_props SR hrealR hnsR
    simp only [isAbsPath, hwdata]
    cases hcs : (relRender SR).data with
    | nil => exact absurd hcs h1
    | cons a l =>
      rw [hcs] at h2
      simp at h2
      simp [h2]
  rw [goClean, if_neg hne]
  simp only [habs, hloop, List.reverse_reverse, Bool.false_eq_true, if_false]
  by_cases hC : SR ++ SF = [] <;> simp [hC, relRender]

/-! The resolution functions on component stacks. -/

theorem secureJoin_relRender (S : List String) (u : String)
    (hreal : ∀ c ∈ S, isRealComp c) (hns : ∀ c ∈ S, '/' ∉ c.data) :
    secureJoin (relRender S) u = relRender (S ++ absStack u) := by
  rw [secureJoin, goClean_slashPre u, goJoin,
    if_pos (relRender_ne_empty S hreal hns)]
  exact goClean_rel_slash S (absStack u) hreal hns (absStack_real u)
    (absStack_no_slash u)

theorem secureJoin_dot (rootPath : String) :
    secureJoin "." rootPath = relRender (absStack rootPath) := by
  have h : ("." : String) = relRender [] := rfl
  rw [h, secureJoin_relRender [] rootPath (by simp) (by simp)]
  rfl

theorem goJoin_relRender (SR SF : List String)
    (hrealR : ∀ c ∈ SR, isRealComp c) (hnsR : ∀ c ∈ SR, '/' ∉ c.data)
    (hrealF : ∀ c ∈ SF, isRealComp c) (hnsF : ∀ c ∈ SF, '/' ∉ c.data) :
    goJoin (relRender SR) (relRender SF) = relRender (SR ++ SF) := by
  rw [goJoin, if_pos (relRender_ne_empty SR hrealR hnsR)]
  exact goClean_rel_rel SR SF hrealR hnsR hrealF hnsF

theorem relRender_isCleanRel (S : List String) (hreal : ∀ c ∈ S, isRealComp c)
    (hns : ∀ c ∈ S, '/' ∉ c.data) : isCleanRel (relRender S) := by
  by_cases hS : S = []
  · subst hS
    exact Or.inl rfl
  · refine Or.inr ⟨?_, (relRender_data_props S hreal hns).2⟩
    have hd : (relRender S).data = joinSlash S := by simp [relRender, hS]
    rw [hd, splitSlash_joinSlash S hS hns]
    exact hreal

theorem getSecureDirAndFilename_fst (rootPath filename : String) :
    (getSecureDirAndFilename rootPath filename).1 =
      relRender (absStack rootPath ++ absStack filename) := by
  show secureJoin (secureJoin "." rootPath) filename = _
  rw [secureJoin_dot, secureJoin_relRender (absStack rootPath) filename
    (absStack_real rootPath) (absStack_no_slash rootPath)]

theorem getSecureDir_eq (rootPath directory : String) :
    getSecureDir rootPath directory =
      relRender (absStack rootPath ++ absStack directory) := by
  show secureJoin (secureJoin "." rootPath) directory = _
  rw [secureJoin_dot, secureJoin_relRender (absStack rootPath) directory
    (absStack_real rootPath) (absStack_no_slash rootPath)]

example : goClean "a//b/./c/.." = "a/b" := by decide
example : goClean "/" = "/" := by decide
example : goClean "" = "." := by decide
example : goClean "../../a" = "../../a" := by decide
example : goClean "/../a" = "/a" := by decide
example : goClean "./" = "." := by decide
example : goJoin "a" "/b" = "a/b" := by decide
example : secureJoin "." "/srv/ftp/data" = "srv/ftp/data" := by decide
example : getSecureDirAndFilename "/srv/ftp/data" "reports/out.txt" =
    ("srv/ftp/data/reports/out.txt", "srv/ftp/data/reports", "out.txt") := by decide
example : getSecureDirAndFilename "/srv/ftp/data" "../../etc/passwd" =
    ("srv/ftp/data/etc/passwd", "srv/ftp/data/etc", "passwd") := by decide
example : getSecureDir "/srv/ftp/data" "reports" = "srv/ftp/data/reports" := by decide
example : goDir "a.txt" = "." := by decide
example : goBase "" = "." := by decide
example : goBase "///" = "/" := by decide


/-! The claims. -/

/-- C1: for every root path and every untrusted filename or directory
string — including ones containing dotdot sequences, absolute-looking
prefixes, or the empty string — the path-resolution functions
getSecureDirAndFilename and getSecureDir return the configured root
(itself scoped under the current directory, as the code does first)
joined with a cleaned relative path, hence never a path outside the
root. -/
theorem c1_path_resolution_contained (rootPath filename directory : String) :
    (∃ rel, isCleanRel rel ∧
      (getSecureDirAndFilename rootPath filename).1 =
        goJoin (secureJoin "." rootPath) rel) ∧
    (∃ rel, isCleanRel rel ∧
      getSecureDir rootPath directory =
        goJoin (secureJoin "." rootPath) rel) := by
  constructor
  · refine ⟨relRender (absStack filename),
      relRender_isCleanRel _ (absStack_real _) (absStack_no_slash _), ?_⟩
    rw [getSecureDirAndFilename_fst, secureJoin_dot,
      goJoin_relRender _ _ (absStack_real rootPath) (absStack_no_slash rootPath)
        (absStack_real filename) (absStack_no_slash filename)]
  · refine ⟨relRender (absStack directory),
      relRender_isCleanRel _ (absStack_real _) (absStack_no_slash _), ?_⟩
    rw [getSecureDir_eq, secureJoin_dot,
      goJoin_relRender _ _ (absStack_real rootPath) (absStack_no_slash rootPath)
        (absStack_real directory) (absStack_no_slash directory)]

/-- C2 (evidence of the code gap): in the create handler, after a
successful dial and login, a directory-change failure followed by a
directory-create failure — and likewise a store failure — returns an
error whose trace contains the dial and login steps but no Quit step:
the session is left open on these error exits. -/
theorem c2_error_exit_leaves_session_open :
    (Ftp.create sampleConfig sampleCreateReq
        { serverAllOk with changeDirOk := false, makeDirOk := false }).1 =
      .error (.makeDir "srv/ftp/data/reports") ∧
    Step.dial "srv:21" ∈ (Ftp.create sampleConfig sampleCreateReq
        { serverAllOk with changeDirOk := false, makeDirOk := false }).2 ∧
    Step.login "u" ∈ (Ftp.create sampleConfig sampleCreateReq
        { serverAllOk with changeDirOk := false, makeDirOk := false }).2 ∧
    Step.quit ∉ (Ftp.create sampleConfig sampleCreateReq
        { serverAllOk with changeDirOk := false, makeDirOk := false }).2 ∧
    (Ftp.create sampleConfig sampleCreateReq
        { serverAllOk with storOk := false }).1 = .error .stor ∧
    Step.quit ∉ (Ftp.create sampleConfig sampleCreateReq
        { serverAllOk with storOk := false }).2 := by decide

/-- C3 (counterexample): with rootPath /srv/ftp/data and filename
reports/out.txt the code resolves to srv/ftp/data/reports/out.txt — the
leading slash is lost because the root is first scoped under the
current directory — so neither the resolved path nor the response field
is /srv/ftp/data/reports/out.txt as the claim states. -/
theorem c3_resolved_path_loses_leading_slash :
    (getSecureDirAndFilename "/srv/ftp/data" "reports/out.txt").1 ≠
      "/srv/ftp/data/reports/out.txt" ∧
    (getSecureDirAndFilename "/srv/ftp/data" "reports/out.txt").1 =
      "srv/ftp/data/reports/out.txt" ∧
    (Ftp.create sampleConfig sampleCreateReq serverAllOk).1 ≠
      .ok ⟨"\x7b\"fileName\":\"/srv/ftp/data/reports/out.txt\"\x7d"⟩ := by decide

/-- C3 (amended): with rootPath /srv/ftp/data and a create request whose
filename is reports/out.txt, the resolved path is
srv/ftp/data/reports/out.txt (the root loses its leading slash by being
scoped under the current directory) and the success response is the
JSON object with fileName srv/ftp/data/reports/out.txt. -/
theorem c3_create_scenario :
    (getSecureDirAndFilename "/srv/ftp/data" "reports/out.txt").1 =
      "srv/ftp/data/reports/out.txt" ∧
    Ftp.create sampleConfig sampleCreateReq serverAllOk =
      (.ok ⟨"\x7b\"fileName\":\"srv/ftp/data/reports/out.txt\"\x7d"⟩,
       [Step.resolve "/srv/ftp/data" "reports/out.txt", Step.dial "srv:21",
        Step.login "u", Step.changeDir "srv/ftp/data/reports",
        Step.stor "out.txt", Step.quit]) := by decide

/-- C4: in the create handler — whenever the directory phase is reached
— if the initial directory change fails there is exactly one directory
creation followed by exactly one retry of the directory change, a retry
failure is a fatal directory error with no further retries, and if the
initial directory change succeeds no directory creation happens at
all. -/
theorem c4_create_dir_retry (fm : ftpMetadata) (req : InvokeRequest)
    (c : ConnOracle) (hfn : mdGet req.metadata "Filename" ≠ "")
    (hdial : c.dialOk = true) (hlogin : c.loginOk = true) :
    (c.changeDirOk = true →
      ((Ftp.create fm req c).2.filter isMakeDirStep).length = 0 ∧
      ((Ftp.create fm req c).2.filter isChangeDirStep).length = 1) ∧
    (c.changeDirOk = false →
      ((Ftp.create fm req c).2.filter isMakeDirStep).length = 1 ∧
      (c.makeDirOk = false →
        ((Ftp.create fm req c).2.filter isChangeDirStep).length = 1 ∧
        (Ftp.create fm req c).1 =
          .error (.makeDir (getSecureDirAndFilename fm.RootPath
            (mdGet req.metadata "Filename")).2.1)) ∧
      (c.makeDirOk = true →
        ((Ftp.create fm req c).2.filter isChangeDirStep).length = 2 ∧
        (c.changeDirRetryOk = false →
          (Ftp.create fm req c).1 =
            .error (.changeDir (getSecureDirAndFilename fm.RootPath
              (mdGet req.metadata "Filename")).2.1)))) := by
  rcases c with ⟨dial, login, cd, mk, cdr, st, le, rt, rd, fc, del, q⟩
  cases dial <;> cases login <;> cases cd <;> cases mk <;> cases cdr <;>
    cases st <;> cases q <;>
    simp_all [Ftp.create, mergeWithRequestMetadata, isMakeDirStep,
      isChangeDirStep]

/-- C4 witness: concrete instance of the directory-retry theorem. -/
theorem c4_create_dir_retry_witness :
    ((Ftp.create sampleConfig sampleCreateReq
        { serverAllOk with changeDirOk := false }).2.filter
      isMakeDirStep).length = 1 ∧
    ((Ftp.create sampleConfig sampleCreateReq
        { serverAllOk with changeDirOk := false }).2.filter
      isChangeDirStep).length = 2 := by
  have h := c4_create_dir_retry sampleConfig sampleCreateReq
    { serverAllOk with changeDirOk := false } (by decide) (by decide) (by decide)
  exact ⟨(h.2 (by decide)).1, ((h.2 (by decide)).2.2 (by decide)).1⟩

/-- C5 (counterexample): on a fully successful listing the trace of the
list handler is dial, login, resolve, list, quit: the directory is
resolved after authentication, not before, and no change-directory step
exists anywhere in the trace, contrary to the claimed step order. -/
theorem c5_list_steps_refute_claimed_order :
    (Ftp.list sampleConfig ⟨"list", "", [("Directory", "reports")]⟩ serverAllOk).2 =
      [Step.dial "srv:21", Step.login "u",
       Step.resolveDir "/srv/ftp/data" "reports",
       Step.listCmd "srv/ftp/data/reports", Step.quit] ∧
    ((Ftp.list sampleConfig ⟨"list", "", [("Directory", "reports")]⟩
        serverAllOk).2.filter isChangeDirStep).length = 0 ∧
    (Ftp.list sampleConfig ⟨"list", "", [("Directory", "reports")]⟩
        serverAllOk).2.findIdx isLoginStep <
      (Ftp.list sampleConfig ⟨"list", "", [("Directory", "reports")]⟩
        serverAllOk).2.findIdx isResolveDirStep := by decide

/-- C5 (amended): the list handler dials, authenticates, then resolves
the (possibly overridden) directory and issues a single LIST command
with the resolved path directly — there is no separate change-directory
step and never any directory creation; a missing directory surfaces as
a list-command error — and finally closes the session. -/
theorem c5_list_order (fm : ftpMetadata) (req : InvokeRequest) (c : ConnOracle)
    (es : List FtpEntry) (hdial : c.dialOk = true) (hlogin : c.loginOk = true)
    (hlist : c.listEntries = some es) (hquit : c.quitOk = true) :
    Ftp.list fm req c =
      (.ok ⟨marshalListResponse
          (getSecureDir (mergeWithRequestMetadata fm req).1.RootPath
            (mergeWithRequestMetadata fm req).1.Directory) es⟩,
       [Step.dial (mergeWithRequestMetadata fm req).1.Server,
        Step.login (mergeWithRequestMetadata fm req).1.User,
        Step.resolveDir (mergeWithRequestMetadata fm req).1.RootPath
          (mergeWithRequestMetadata fm req).1.Directory,
        Step.listCmd (getSecureDir (mergeWithRequestMetadata fm req).1.RootPath
          (mergeWithRequestMetadata fm req).1.Directory),
        Step.quit]) ∧
    (∀ c2 : ConnOracle,
      ((Ftp.list fm req c2).2.filter isChangeDirStep).length = 0 ∧
      ((Ftp.list fm req c2).2.filter isMakeDirStep).length = 0) ∧
    (∀ c3 : ConnOracle, c3.dialOk = true → c3.loginOk = true →
      c3.listEntries = none →
      Ftp.list fm req c3 =
        (.error (.listDir (getSecureDir
            (mergeWithRequestMetadata fm req).1.RootPath
            (mergeWithRequestMetadata fm req).1.Directory)),
         [Step.dial (mergeWithRequestMetadata fm req).1.Server,
          Step.login (mergeWithRequestMetadata fm req).1.User,
          Step.resolveDir (mergeWithRequestMetadata fm req).1.RootPath
            (mergeWithRequestMetadata fm req).1.Directory,
          Step.listCmd (getSecureDir
            (mergeWithRequestMetadata fm req).1.RootPath
            (mergeWithRequestMetadata fm req).1.Directory)])) := by
  refine ⟨?_, ?_, ?_⟩
  · rcases c with ⟨dial, login, cd, mk, cdr, st, le, rt, rd, fc, del, q⟩
    cases dial <;> cases login <;> cases q <;>
      simp_all [Ftp.list, mergeWithRequestMetadata]
  · intro c2
    rcases c2 with ⟨d2, l2, cd2, mk2, cdr2, st2, le2, rt2, rd2, fc2, del2, q2⟩
    cases d2 <;> cases l2 <;> cases le2 <;> cases q2 <;>
      simp_all [Ftp.list, mergeWithRequestMetadata, isChangeDirStep,
        isMakeDirStep]
  · intro c3 hd3 hl3 hle3
    rcases c3 with ⟨d3, l3, cd3, mk3, cdr3, st3, le3, rt3, rd3, fc3, del3, q3⟩
    cases d3 <;> cases l3 <;>
      simp_all [Ftp.list, mergeWithRequestMetadata]

/-- C5 witness: concrete instance of the amended list-order theorem. -/
theorem c5_list_order_witness :
    Ftp.list sampleConfig ⟨"list", "", [("Directory", "reports")]⟩ serverAllOk =
      (.ok ⟨marshalListResponse "srv/ftp/data/reports"
          [{ name := "out.txt", entryType := "file" }]⟩,
       [Step.dial "srv:21", Step.login "u",
        Step.resolveDir "/srv/ftp/data" "reports",
        Step.listCmd "srv/ftp/data/reports", Step.quit]) := by
  have h := c5_list_order sampleConfig ⟨"list", "", [("Directory", "reports")]⟩
    serverAllOk [{ name := "out.txt", entryType := "file" }]
    (by decide) (by decide) (by decide) (by decide)
  exact h.1

/-- C6 (counterexample): the code reads the metadata key "Filename"
with a capital F: a create request that carries the filename only under
the capitalized key has no value at all under the key "filename", yet
the operation succeeds and opens a connection instead of failing the
filename validation. -/
theorem c6_lowercase_key_not_read :
    mdLookup sampleCreateReq.metadata "filename" = none ∧
    (Ftp.create sampleConfig sampleCreateReq serverAllOk).1 =
      .ok ⟨"\x7b\"fileName\":\"srv/ftp/data/reports/out.txt\"\x7d"⟩ ∧
    Step.dial "srv:21" ∈
      (Ftp.create sampleConfig sampleCreateReq serverAllOk).2 := by decide

/-- C6 (amended): the required per-request metadata key is "Filename"
(capitalized): for every create, get, or delete request in which the
value under "Filename" is absent or the empty string, the operation
fails with the filename-is-empty validation error and performs no step
at all — in particular no connection to the FTP server is opened. -/
theorem c6_empty_filename_rejected (fm : ftpMetadata) (req : InvokeRequest)
    (c : ConnOracle) (h : mdGet req.metadata "Filename" = "") :
    Ftp.create fm req c = (.error .filenameEmpty, []) ∧
    Ftp.get fm req c = (.error .filenameEmpty, []) ∧
    Ftp.delete fm req c = (.error .filenameEmpty, []) := by
  refine ⟨?_, ?_, ?_⟩ <;>
    simp [Ftp.create, Ftp.get, Ftp.delete, mergeWithRequestMetadata, h]

/-- C6 witness: a create request with no metadata at all is rejected
with the validation error and an empty trace. -/
theorem c6_empty_filename_rejected_witness :
    Ftp.create sampleConfig ⟨"create", "x", []⟩ serverAllOk =
      (.error .filenameEmpty, []) :=
  (c6_empty_filename_rejected sampleConfig ⟨"create", "x", []⟩ serverAllOk
    (by decide)).1

/-- C7 (counterexample): on a successful get the session-termination
step comes strictly before the stream-drain and stream-release steps —
retrieve, quit, drain, close — so the stream is not drained and
released before or alongside termination as claimed. -/
theorem c7_drain_happens_after_quit :
    (Ftp.get sampleConfig ⟨"get", "", [("Filename", "reports/out.txt")]⟩
        serverAllOk).2 =
      [Step.resolve "/srv/ftp/data" "reports/out.txt", Step.dial "srv:21",
       Step.login "u", Step.changeDir "srv/ftp/data/reports",
       Step.retr "out.txt", Step.quit, Step.readStream "out.txt",
       Step.closeStream] ∧
    (Ftp.get sampleConfig ⟨"get", "", [("Filename", "reports/out.txt")]⟩
        serverAllOk).2.findIdx isQuitStep <
      (Ftp.get sampleConfig ⟨"get", "", [("Filename", "reports/out.txt")]⟩
        serverAllOk).2.findIdx isReadStep ∧
    (Ftp.get sampleConfig ⟨"get", "", [("Filename", "reports/out.txt")]⟩
        serverAllOk).2.findIdx isQuitStep <
      (Ftp.get sampleConfig ⟨"get", "", [("Filename", "reports/out.txt")]⟩
        serverAllOk).2.findIdx isCloseStep := by decide

/-- C7 (amended): on success the get handler returns the complete byte
content of the retrieved file as the raw response payload with no JSON
envelope; the retrieval stream is fully drained and then released after
the session-termination step — the order is retrieve, quit, drain,
close. -/
theorem c7_get_success (fm : ftpMetadata) (req : InvokeRequest)
    (c : ConnOracle) (hfn : mdGet req.metadata "Filename" ≠ "")
    (hdial : c.dialOk = true) (hlogin : c.loginOk = true)
    (hcd : c.changeDirOk = true) (hretr : c.retrOk = true)
    (hquit : c.quitOk = true) (hread : c.readOk = true) :
    Ftp.get fm req c =
      (.ok ⟨c.fileContent⟩,
       [Step.resolve fm.RootPath (mdGet req.metadata "Filename"),
        Step.dial (mergeWithRequestMetadata fm req).1.Server,
        Step.login (mergeWithRequestMetadata fm req).1.User,
        Step.changeDir (getSecureDirAndFilename fm.RootPath
          (mdGet req.metadata "Filename")).2.1,
        Step.retr (getSecureDirAndFilename fm.RootPath
          (mdGet req.metadata "Filename")).2.2,
        Step.quit,
        Step.readStream (getSecureDirAndFilename fm.RootPath
          (mdGet req.metadata "Filename")).2.2,
        Step.closeStream]) := by
  rcases c with ⟨dial, login, cd, mk, cdr, st, le, rt, rd, fc, del, q⟩
  cases dial <;> cases login <;> cases cd <;> cases rt <;> cases rd <;>
    cases q <;> simp_all [Ftp.get, mergeWithRequestMetadata]

/-- C7 witness: concrete instance of the get success theorem. -/
theorem c7_get_success_witness :
    Ftp.get sampleConfig ⟨"get", "", [("Filename", "reports/out.txt")]⟩
        serverAllOk =
      (.ok ⟨"hello"⟩,
       [Step.resolve "/srv/ftp/data" "reports/out.txt", Step.dial "srv:21",
        Step.login "u", Step.changeDir "srv/ftp/data/reports",
        Step.retr "out.txt", Step.quit, Step.readStream "out.txt",
        Step.closeStream]) := by
  have h := c7_get_success sampleConfig
    ⟨"get", "", [("Filename", "reports/out.txt")]⟩ serverAllOk
    (by decide) (by decide) (by decide) (by decide) (by decide) (by decide)
    (by decide)
  exact h

/-- C8: merging static configuration with request metadata is a pure
function that replaces only the Directory field, and only when the
request carries a non-empty directory override; rootPath, server, port,
user and password are returned unchanged, and an absent or empty
override leaves the static default directory in place. -/
theorem c8_merge_replaces_only_directory (fm : ftpMetadata)
    (req : InvokeRequest) :
    (mergeWithRequestMetadata fm req).1.RootPath = fm.RootPath ∧
    (mergeWithRequestMetadata fm req).1.Server = fm.Server ∧
    (mergeWithRequestMetadata fm req).1.Port = fm.Port ∧
    (mergeWithRequestMetadata fm req).1.User = fm.User ∧
    (mergeWithRequestMetadata fm req).1.Password = fm.Password ∧
    (∀ v, mdLookup req.metadata "Directory" = some v → v ≠ "" →
      (mergeWithRequestMetadata fm req).1.Directory = v) ∧
    (mdLookup req.metadata "Directory" = none →
      (mergeWithRequestMetadata fm req).1.Directory = fm.Directory) ∧
    (mdLookup req.metadata "Directory" = some "" →
      (mergeWithRequestMetadata fm req).1.Directory = fm.Directory) := by
  cases hl : mdLookup req.metadata "Directory" with
  | none => simp [mergeWithRequestMetadata, hl]
  | some v =>
    by_cases hv : v = ""
    · subst hv
      simp [mergeWithRequestMetadata, hl]
    · simp [mergeWithRequestMetadata, hl, hv]

/-- C8 witness: a non-empty directory override replaces the directory
while the root path is untouched. -/
theorem c8_merge_replaces_only_directory_witness :
    (mergeWithRequestMetadata sampleConfig
      ⟨"list", "", [("Directory", "reports")]⟩).1.Directory = "reports" ∧
    (mergeWithRequestMetadata sampleConfig
      ⟨"list", "", [("Directory", "reports")]⟩).1.RootPath = "/srv/ftp/data" := by
  have h := c8_merge_replaces_only_directory sampleConfig
    ⟨"list", "", [("Directory", "reports")]⟩
  exact ⟨h.2.2.2.2.2.1 "reports" (by decide) (by decide), h.1⟩

/-- C9 (counterexample): a delete session in which the delete command
succeeds but the closing Quit fails returns a quit error rather than
the empty success payload, so a successful delete command alone does
not guarantee the empty success response. -/
theorem c9_quit_failure_masks_delete_success :
    ({ serverAllOk with quitOk := false } : ConnOracle).deleteOk = true ∧
    (Ftp.delete sampleConfig ⟨"delete", "", [("Filename", "reports/out.txt")]⟩
        { serverAllOk with quitOk := false }).1 = .error .quit ∧
    (Ftp.delete sampleConfig ⟨"delete", "", [("Filename", "reports/out.txt")]⟩
        { serverAllOk with quitOk := false }).1 ≠ .ok ⟨""⟩ := by decide

/-- C9 (amended): once the delete handler reaches the delete command,
it returns the empty success payload exactly when both the delete
command and the final Quit succeed; a delete-command failure —
including deleting a non-existent file — is an error naming the
resolved base name, and a Quit failure after a successful delete is
reported as an error as well. -/
theorem c9_delete_result (fm : ftpMetadata) (req : InvokeRequest)
    (c : ConnOracle) (hfn : mdGet req.metadata "Filename" ≠ "")
    (hdial : c.dialOk = true) (hlogin : c.loginOk = true)
    (hcd : c.changeDirOk = true) :
    (c.deleteOk = true → c.quitOk = true →
      (Ftp.delete fm req c).1 = .ok ⟨""⟩) ∧
    (c.deleteOk = false →
      (Ftp.delete fm req c).1 =
        .error (.deleteFile (getSecureDirAndFilename fm.RootPath
          (mdGet req.metadata "Filename")).2.2)) ∧
    (c.deleteOk = true → c.quitOk = false →
      (Ftp.delete fm req c).1 = .error .quit) := by
  rcases c with ⟨dial, login, cd, mk, cdr, st, le, rt, rd, fc, del, q⟩
  cases dial <;> cases login <;> cases cd <;> cases del <;> cases q <;>
    simp_all [Ftp.delete, mergeWithRequestMetadata]

/-- C9 witness: a fully successful delete returns the empty payload. -/
theorem c9_delete_result_witness :
    (Ftp.delete sampleConfig ⟨"delete", "", [("Filename", "reports/out.txt")]⟩
        serverAllOk).1 = .ok ⟨""⟩ := by
  have h := c9_delete_result sampleConfig
    ⟨"delete", "", [("Filename", "reports/out.txt")]⟩ serverAllOk
    (by decide) (by decide) (by decide) (by decide)
  exact h.1 (by decide) (by decide)

/-- C10: mergeWithRequestMetadata returns a nil error for every input,
so the error-merging branch at the start of each of the four handlers
is unreachable: no invocation of create, list, get or delete can ever
return the merge-metadata error. -/
theorem c10_merge_error_unreachable (fm : ftpMetadata) (req : InvokeRequest) :
    (mergeWithRequestMetadata fm req).2 = none ∧
    ∀ c : ConnOracle,
      (Ftp.create fm req c).1 ≠ .error .mergeMeta ∧
      (Ftp.list fm req c).1 ≠ .error .mergeMeta ∧
      (Ftp.get fm req c).1 ≠ .error .mergeMeta ∧
      (Ftp.delete fm req c).1 ≠ .error .mergeMeta := by
  refine ⟨rfl, ?_⟩
  intro c
  refine ⟨?_, ?_, ?_, ?_⟩
  · simp only [Ftp.create, mergeWithRequestMetadata]
    repeat' split
    all_goals simp
  · simp only [Ftp.list, mergeWithRequestMetadata]
    repeat' split
    all_goals simp
  · simp only [Ftp.get, mergeWithRequestMetadata]
    repeat' split
    all_goals simp
  · simp only [Ftp.delete, mergeWithRequestMetadata]
    repeat' split
    all_goals simp
